import Mathlib

/-!
Shallow embedding of the cpd-rs rigid registration core (Coherent Point Drift).

Matrices are lists of rows of real numbers.  Floating point arithmetic in the
source is modelled by exact real arithmetic.  The external SVD primitive of the
matrix library is modelled as an oracle parameter.  The `Runner::run` control
flow additionally records the order of its phases so that claims about when
validation happens relative to normalization can be stated.
-/

open Real

open scoped Classical

noncomputable section

namespace Cpd

/-- A dense matrix as a list of rows. -/
abbrev LMat := List (List ℝ)

/-- Errors surfaced by the library (`failure::Error` erases the concrete types;
we keep them in one inductive). -/
inductive CpdError where
  | invalidOutlierWeight (w : ℝ)
  | cannotNormalizeIndependentlyWithoutScale

/-- Squared Euclidean distance between a fixed row and a moving row:
`fixed.row(n).iter().zip(moving.row(m).iter()).map(|(&a, &b)| (a - b).powi(2)).sum()`. -/
def sqDist (a b : List ℝ) : ℝ := (List.zipWith (fun x y => (x - y) ^ 2) a b).sum

/-- One Gaussian kernel entry: `p[m] = (norm / ksig).exp()` with `ksig = -2.0 * sigma2`. -/
def kernel (sigma2 : ℝ) (f m : List ℝ) : ℝ := Real.exp (sqDist f m / (-2 * sigma2))

/-- The outlier term of `Transformer::probabilities`:
`(outlier_weight * moving_nrows * (-ksig * PI).powf(0.5 * D)) / ((1 - outlier_weight) * fixed_nrows)`. -/
def outlierTerm (d : ℕ) (fixedRows movingRows : ℕ) (w sigma2 : ℝ) : ℝ :=
  (w * movingRows * (2 * sigma2 * Real.pi) ^ (0.5 * (d : ℝ))) / ((1 - w) * fixedRows)

/-- The kernel sum `sp` for one fixed row (sum over all moving rows, plus the outlier term). -/
def spRow (d : ℕ) (fixed moving : LMat) (w sigma2 : ℝ) (f : List ℝ) : ℝ :=
  (moving.map (kernel sigma2 f)).sum + outlierTerm d fixed.length moving.length w sigma2

/-- The probability structure produced by the Gauss transform
(`p1` indexed by moving rows, `pt1` by fixed rows, `px` with one row per moving row). -/
structure Probabilities where
  p1 : List ℝ
  pt1 : List ℝ
  px : LMat
  error : ℝ

/-- Functional translation of `Transformer::probabilities`.  The imperative
accumulations `p1 += &p / sp` and `px.column_mut(d) += (fixed[(n, d)] / sp) * &p`
become, per moving row `m`, sums over the fixed rows. -/
def probabilities (d : ℕ) (fixed moving : LMat) (w sigma2 : ℝ) : Probabilities :=
  let sp := spRow d fixed moving w sigma2
  let outliers := outlierTerm d fixed.length moving.length w sigma2
  { p1 := moving.map fun m => (fixed.map fun f => kernel sigma2 f m / sp f).sum
    pt1 := fixed.map fun f => 1 - outliers / sp f
    px := moving.map fun m => (List.range d).map fun j =>
      (fixed.map fun f => f.getD j 0 / sp f * kernel sigma2 f m).sum
    error := (fixed.map fun f => -Real.log (sp f)).sum
      + d * fixed.length * Real.log sigma2 / 2 }

/-- The state held by a `Transformer`. -/
structure Transformer where
  fixed : LMat
  outlierWeight : ℝ

/-- Embedding of `Transformer::new`: rejects an outlier weight strictly outside `[0, 1]`. -/
def transformerNew (fixed : LMat) (w : ℝ) : Except CpdError Transformer :=
  if w < 0 ∨ w > 1 then .error (.invalidOutlierWeight w) else .ok ⟨fixed, w⟩

/-- IEEE-style division as used by the source's `f64` arithmetic for the
`outliers / sp` quotient: dividing by zero yields a non-finite value (NaN for
`0.0/0.0`, ±∞ otherwise), modelled as `none`; otherwise the real quotient. -/
def fdiv (a b : ℝ) : Option ℝ := if b = 0 then Option.none else some (a / b)

/-- The source's `pt1[n] = 1. - outliers / sp` entry with the non-finite path
made explicit: `none` (NaN/∞ in the source) when the kernel sum is zero. -/
def pt1EntryF (d : ℕ) (fixed moving : LMat) (w sigma2 : ℝ) (f : List ℝ) : Option ℝ :=
  (fdiv (outlierTerm d fixed.length moving.length w sigma2)
    (spRow d fixed moving w sigma2 f)).map fun q => 1 - q

/-- Per-set normalization parameters (`offset` is the centroid D-vector, `scale` a scalar). -/
structure Parameters where
  offset : List ℝ
  scale : ℝ

/-- Embedding of `Parameters::new`: offset is the per-column mean; scale is the root mean square
of all entries of the centered matrix. -/
def Parameters.new (d : ℕ) (m : LMat) : Parameters :=
  let offset := (List.range d).map fun j => (m.map fun r => r.getD j 0).sum / m.length
  let centered := m.map fun r => List.zipWith (fun x o => x - o) r offset
  { offset := offset
    scale := Real.sqrt ((centered.map fun r => (r.map fun x => x ^ 2).sum).sum / m.length) }

/-- Embedding of `Parameters::normalize`: subtract the offset per column, then divide every entry by scale. -/
def Parameters.normalizeM (p : Parameters) (m : LMat) : LMat :=
  m.map fun r => (List.zipWith (fun x o => x - o) r p.offset).map fun x => x / p.scale

/-- Embedding of `Parameters::denormalize`: multiply every entry by scale, then add the offset per column. -/
def Parameters.denormalizeM (p : Parameters) (m : LMat) : LMat :=
  m.map fun r => List.zipWith (fun x o => x + o) (r.map fun x => x * p.scale) p.offset

/-- The `Normalize` strategy enum. -/
inductive NormalizeKind where
  | independent
  | sameScale
  | none

/-- Embedding of `Normalize::requires_scaling`: true only for `Independent`. -/
def NormalizeKind.requiresScaling : NormalizeKind → Bool
  | .independent => true
  | _ => false

/-- Normalization parameters for the fixed and the moving set. -/
structure Normalization where
  fixed : Parameters
  moving : Parameters

/-- Embedding of `Normalization::new`. -/
def Normalization.new (d : ℕ) (fixed moving : LMat) : Normalization :=
  { fixed := Parameters.new d fixed, moving := Parameters.new d moving }

/-- Embedding of `Normalization::set_scales_to_mean`: both scales become their arithmetic mean. -/
def Normalization.setScalesToMean (n : Normalization) : Normalization :=
  let s := (n.fixed.scale + n.moving.scale) / 2
  { fixed := { n.fixed with scale := s }, moving := { n.moving with scale := s } }

/-- Embedding of `Normalize::normalize` strategy dispatch, returning the two working matrices
and an optional normalization record (`None` returns the inputs unchanged). -/
def NormalizeKind.normalize (k : NormalizeKind) (d : ℕ) (fixed moving : LMat) :
    LMat × LMat × Option Normalization :=
  match k with
  | .independent =>
    let nz := Normalization.new d fixed moving
    (nz.fixed.normalizeM fixed, nz.moving.normalizeM moving, some nz)
  | .sameScale =>
    let nz := (Normalization.new d fixed moving).setScalesToMean
    (nz.fixed.normalizeM fixed, nz.moving.normalizeM moving, some nz)
  | .none => (fixed, moving, Option.none)

/-- The entries of column `j` (out-of-range entries read as `0`). -/
def columnL (j : ℕ) (m : LMat) : List ℝ := m.map fun r => r.getD j 0

/-- Per-column sums, the `sum` closure of `runner::sigma2`. -/
def colSums (d : ℕ) (m : LMat) : List ℝ := (List.range d).map fun j => (columnL j m).sum

/-- Dot product of two equally long vectors. -/
def dotL (a b : List ℝ) : ℝ := (List.zipWith (fun x y => x * y) a b).sum

/-- Matrix transpose for a matrix with `d` columns. -/
def transposeL (d : ℕ) (m : LMat) : LMat := (List.range d).map fun j => columnL j m

/-- Matrix product (the column count of the right factor is read off its first row). -/
def matmulL (a b : LMat) : LMat :=
  a.map fun r => (List.range (b.headD []).length).map fun j => dotL r (columnL j b)

/-- Trace: sum of the diagonal. -/
def traceL (m : LMat) : ℝ := ((List.range m.length).map fun i => (m.getD i []).getD i 0).sum

/-- Embedding of `runner::sigma2`, the default sigma2 for two matrices. -/
def sigma2Default (d : ℕ) (fixed moving : LMat) : ℝ :=
  let numerator := fixed.length * traceL (matmulL (transposeL d fixed) fixed)
    + moving.length * traceL (matmulL (transposeL d moving) moving)
    - 2 * dotL (colSums d fixed) (colSums d moving)
  numerator / (fixed.length * moving.length * d)

/-- The spec's formula for the default sigma2, written with explicit sums:
`[N·trace(fixedᵗ·fixed) + M·trace(movingᵗ·moving) − 2·(columnSums(fixed)·columnSumsᵗ(moving))] / (N·M·D)`
where `trace(Xᵗ·X)` is the sum of the squares of all entries of `X`. -/
def sigma2Spec (d : ℕ) (fixed moving : LMat) : ℝ :=
  (fixed.length * ((List.range d).map fun j => ((columnL j fixed).map fun x => x ^ 2).sum).sum
    + moving.length * ((List.range d).map fun j => ((columnL j moving).map fun x => x ^ 2).sum).sum
    - 2 * ((List.range d).map fun j => (columnL j fixed).sum * (columnL j moving).sum).sum)
  / (fixed.length * moving.length * d)

/-- The runner configuration (builder fields of `Runner`). -/
structure RunnerCfg where
  errorChangeThreshold : ℝ
  maxIterations : ℕ
  normalize : NormalizeKind
  outlierWeight : ℝ
  sigma2Init : Option ℝ
  sigma2Threshold : ℝ

/-- The largest finite `f64`, the initial value of `error_change`. -/
def f64MAX : ℝ := 2 ^ 1024 - 2 ^ 971

/-- A registration strategy: internal state type `S` with the three trait
operations of `Registration<D>` (`iterate` also returns the new sigma2). -/
structure RegOps (S : Type) where
  iterate : S → LMat → LMat → Probabilities → S × ℝ
  transform : S → LMat → LMat
  denormalize : S → Normalization → S

/-- The mutable state of the `Runner::run` while loop. -/
structure LoopState (S : Type) where
  error : ℝ
  errorChange : ℝ
  iterations : ℕ
  sigma2 : ℝ
  moved : LMat
  reg : S

/-- The while-loop guard of `Runner::run`:
`iterations < self.max_iterations && self.error_change_threshold < error_change && self.sigma2_threshold < sigma2`. -/
def loopCond {S : Type} (cfg : RunnerCfg) (s : LoopState S) : Prop :=
  s.iterations < cfg.maxIterations ∧ cfg.errorChangeThreshold < s.errorChange ∧
    cfg.sigma2Threshold < s.sigma2

/-- One iteration of the `Runner::run` while loop body. -/
def loopBody {S : Type} (cfg : RunnerCfg) (d : ℕ) (ops : RegOps S)
    (fixed moving : LMat) (s : LoopState S) : LoopState S :=
  let pr := probabilities d fixed s.moved cfg.outlierWeight s.sigma2
  let errorChange := |(pr.error - s.error) / pr.error|
  let (reg, sigma2) := ops.iterate s.reg fixed moving pr
  { error := pr.error
    errorChange := errorChange
    iterations := s.iterations + 1
    sigma2 := sigma2
    moved := ops.transform reg moving
    reg := reg }

/-- Fuel-indexed unfolding of the `Runner::run` while loop. -/
def runLoop {S : Type} (cfg : RunnerCfg) (d : ℕ) (ops : RegOps S)
    (fixed moving : LMat) : ℕ → LoopState S → LoopState S
  | 0, s => s
  | fuel + 1, s =>
    if loopCond cfg s then runLoop cfg d ops fixed moving fuel (loopBody cfg d ops fixed moving s)
    else s

/-- Phases of `Runner::run`, in the order the statements occur in the source. -/
inductive Phase where
  | normalizePhase
  | sigma2Phase
  | validatePhase
  | loopPhase

/-- The result of a run. -/
structure RunResult (S : Type) where
  converged : Bool
  iterations : ℕ
  moved : LMat
  reg : S

/-- Embedding of `Runner::run`, with the list of executed phases recorded in source order:
normalize the inputs, compute the initial sigma2 (`unwrap_or` evaluates the
default eagerly), construct the `Transformer` (which validates the outlier
weight, returning early on error), run the loop, then denormalize. -/
def runnerRun {S : Type} (cfg : RunnerCfg) (d : ℕ) (ops : RegOps S) (s0 : S)
    (fixed moving : LMat) : List Phase × Except CpdError (RunResult S) :=
  let nrm := cfg.normalize.normalize d fixed moving
  let fixedN := nrm.1
  let movingN := nrm.2.1
  let normalization := nrm.2.2
  let sigma2 := cfg.sigma2Init.getD (sigma2Default d fixedN movingN)
  match transformerNew fixedN cfg.outlierWeight with
  | .error e => ([.normalizePhase, .sigma2Phase, .validatePhase], .error e)
  | .ok _ =>
    let init : LoopState S :=
      { error := 0, errorChange := f64MAX, iterations := 0, sigma2 := sigma2,
        moved := movingN, reg := s0 }
    let final := runLoop cfg d ops fixedN movingN (cfg.maxIterations + 1) init
    let post := match normalization with
      | some nz => (ops.denormalize final.reg nz, nz.moving.denormalizeM movingN)
      | Option.none => (final.reg, movingN)
    let moved := ops.transform post.1 post.2
    ([.normalizePhase, .sigma2Phase, .validatePhase, .loopPhase],
      .ok { converged := decide (final.iterations < cfg.maxIterations)
            iterations := final.iterations
            moved := moved
            reg := post.1 })

/-- Identity matrix as a list of rows. -/
def identityL (d : ℕ) : LMat :=
  (List.range d).map fun i => (List.range d).map fun j => if i = j then (1 : ℝ) else 0

/-- Replace the entry at row `i`, column `j`. -/
def setEntry (m : LMat) (i j : ℕ) (x : ℝ) : LMat := m.set i ((m.getD i []).set j x)

/-- Determinant of the top-left `d × d` block (the matrix library's `determinant()`). -/
def detL (d : ℕ) (m : LMat) : ℝ :=
  Matrix.det (Matrix.of fun i j : Fin d => (m.getD i []).getD j 0)

/-- Square matrix with the given diagonal (`from_diagonal`). -/
def diagL (d : ℕ) (s : List ℝ) : LMat :=
  (List.range d).map fun i => (List.range d).map fun j => if i = j then s.getD i 0 else 0

/-- Matrix-vector product. -/
def matVecL (m : LMat) (v : List ℝ) : List ℝ := m.map fun r => dotL r v

/-- Entrywise matrix difference. -/
def matSubL (a b : LMat) : LMat := List.zipWith (fun r s => List.zipWith (fun x y => x - y) r s) a b

/-- Scalar multiple of a matrix. -/
def matScaleL (c : ℝ) (m : LMat) : LMat := m.map fun r => r.map fun x => c * x

/-- Outer product of two vectors. -/
def outerL (u v : List ℝ) : LMat := u.map fun x => v.map fun y => x * y

/-- The result of the external SVD primitive (`a.svd(true, true)`): `U`, the
singular values, and `Vᵗ`. -/
structure SvdResult where
  u : LMat
  singularValues : List ℝ
  vt : LMat

/-- The rigid builder configuration. -/
structure RigidCfg where
  allowReflections : Bool
  runner : RunnerCfg
  scaleFlag : Bool

/-- The internal state of a rigid `Registration`. -/
structure RegState where
  rotation : LMat
  scale : ℝ
  translation : List ℝ

/-- Embedding of `rigid::Registration::new`: rejects `Normalize::Independent` without rigid
scaling, otherwise starts from identity rotation, unit scale, zero translation. -/
def registrationNew (cfg : RigidCfg) (d : ℕ) : Except CpdError RegState :=
  if cfg.runner.normalize.requiresScaling && !cfg.scaleFlag then
    .error .cannotNormalizeIndependentlyWithoutScale
  else
    .ok { rotation := identityL d, scale := 1, translation := List.replicate d 0 }

/-- The weighted cross-covariance of the M-step:
`a = px.transpose() * moving - np * mu_fixed * mu_moving.transpose()`. -/
def crossCovariance (d : ℕ) (np : ℝ) (muFixed muMoving : List ℝ) (moving px : LMat) : LMat :=
  matSubL (matmulL (transposeL d px) moving) (matScaleL np (outerL muFixed muMoving))

/-- The Procrustes correction matrix built by `iterate`: the identity, except
that when reflections are disallowed the last diagonal entry is overwritten
with `det(U·Vᵗ)`. -/
def cMatrix (allowReflections : Bool) (d : ℕ) (u vt : LMat) : LMat :=
  if allowReflections then identityL d
  else setEntry (identityL d) (d - 1) (d - 1) (detL d (matmulL u vt))

/-- The correction matrix in the spec's words: the identity except that the
last diagonal entry is `sign(det(U·Vᵗ))`. -/
def cMatrixSpec (d : ℕ) (u vt : LMat) : LMat :=
  setEntry (identityL d) (d - 1) (d - 1) (Real.sign (detL d (matmulL u vt)))

/-- The weighted fixed centroid `mu_fixed = fixed.transpose() * pt1 / np`. -/
def muFixedOf (d : ℕ) (fixed : LMat) (pr : Probabilities) : List ℝ :=
  (transposeL d fixed).map fun r => dotL r pr.pt1 / pr.pt1.sum

/-- The weighted moving centroid `mu_moving = moving.transpose() * p1 / np`. -/
def muMovingOf (d : ℕ) (moving : LMat) (pr : Probabilities) : List ℝ :=
  (transposeL d moving).map fun r => dotL r pr.p1 / pr.pt1.sum

/-- The cross-covariance `a` decomposed by the SVD inside `iterate`. -/
def aMatrixOf (d : ℕ) (fixed moving : LMat) (pr : Probabilities) : LMat :=
  crossCovariance d pr.pt1.sum (muFixedOf d fixed pr) (muMovingOf d moving pr) moving pr.px

/-- One M-step (`rigid::Registration::iterate`), with the SVD primitive passed
in as an oracle.  Returns the updated state and the new sigma2. -/
def rigidIterate (cfg : RigidCfg) (d : ℕ) (svd : LMat → SvdResult) (st : RegState)
    (fixed moving : LMat) (pr : Probabilities) : RegState × ℝ :=
  let np := pr.pt1.sum
  let muFixed := muFixedOf d fixed pr
  let muMoving := muMovingOf d moving pr
  let sv := svd (aMatrixOf d fixed moving pr)
  let c := cMatrix cfg.allowReflections d sv.u sv.vt
  let rotation := matmulL (matmulL sv.u c) sv.vt
  let trace := traceL (matmulL (diagL d sv.singularValues) c)
  let aS := ((List.range d).map fun j =>
    (List.zipWith (fun n p => n ^ 2 * p) (columnL j fixed) pr.pt1).sum).sum
  let bS := np * dotL muFixed muFixed
  let cS := ((List.range d).map fun j =>
    (List.zipWith (fun n p => n ^ 2 * p) (columnL j moving) pr.p1).sum).sum
  let dS := np * dotL muMoving muMoving
  let denominator := np * d
  let scale := if cfg.scaleFlag then trace / (cS - dS) else st.scale
  let sigma2 := if cfg.scaleFlag then |(aS - bS - scale * trace) / denominator|
    else |(aS - bS + cS - dS - 2 * trace) / denominator|
  let translation := List.zipWith (fun x y => x - y) muFixed
    ((matVecL rotation muMoving).map fun x => scale * x)
  ({ rotation := rotation, scale := scale, translation := translation }, sigma2)

/-- Embedding of `rigid::Registration::transform`: `scale * moving * rotation`, then the
translation added to each row. -/
def rigidTransform (st : RegState) (moving : LMat) : LMat :=
  (matmulL (matScaleL st.scale moving) st.rotation).map fun r =>
    List.zipWith (fun x t => x + t) r st.translation

/-- Embedding of `rigid::Registration::denormalize`. -/
def rigidDenormalize (st : RegState) (nz : Normalization) : RegState :=
  let scale := st.scale * (nz.fixed.scale / nz.moving.scale)
  let translation := List.zipWith (fun x y => x - y)
    (List.zipWith (fun x o => x + o) (st.translation.map fun x => nz.fixed.scale * x)
      nz.fixed.offset)
    ((matVecL st.rotation nz.moving.offset).map fun x => scale * x)
  { st with scale := scale, translation := translation }

/-- The rigid strategy packaged as `RegOps`. -/
def rigidOps (cfg : RigidCfg) (d : ℕ) (svd : LMat → SvdResult) : RegOps RegState :=
  { iterate := fun st f m pr => rigidIterate cfg d svd st f m pr
    transform := rigidTransform
    denormalize := rigidDenormalize }

/-- Embedding of `Rigid::register`: build the registration (which can fail on an invalid
configuration) and only then invoke `Runner::run`.  On a configuration error no
phase of the runner executes. -/
def rigidRegister (cfg : RigidCfg) (d : ℕ) (svd : LMat → SvdResult)
    (fixed moving : LMat) : List Phase × Except CpdError (RunResult RegState) :=
  match registrationNew cfg d with
  | .error e => ([], .error e)
  | .ok st0 => runnerRun cfg.runner d (rigidOps cfg d svd) st0 fixed moving

/-! ## Claim C4: configuration guard of the rigid registration -/

/-- A trivial SVD oracle, used to instantiate oracle parameters in witnesses. -/
def svd0 : LMat → SvdResult := fun _ => ⟨identityL 2, [0, 0], identityL 2⟩

/-- C4: constructing a rigid registration fails (with
`CannotNormalizeIndependentlyWithoutScale`) exactly when the normalization
strategy is `Independent` and scaling is disabled; in that case `register`
returns the error with no runner phase executed. -/
theorem rigid_config_guard (cfg : RigidCfg) (d : ℕ) (svd : LMat → SvdResult)
    (fixed moving : LMat) :
    ((∃ st, registrationNew cfg d = Except.ok st) ↔
      ¬(cfg.runner.normalize = NormalizeKind.independent ∧ cfg.scaleFlag = false)) ∧
    (cfg.runner.normalize = NormalizeKind.independent → cfg.scaleFlag = false →
      rigidRegister cfg d svd fixed moving =
        ([], Except.error CpdError.cannotNormalizeIndependentlyWithoutScale)) := by
  have hguard : (cfg.runner.normalize.requiresScaling && !cfg.scaleFlag) = true ↔
      cfg.runner.normalize = NormalizeKind.independent ∧ cfg.scaleFlag = false := by
    cases h : cfg.runner.normalize <;> cases hs : cfg.scaleFlag <;>
      simp [NormalizeKind.requiresScaling]
  constructor
  · constructor
    · rintro ⟨st, hst⟩ hcase
      rw [registrationNew, if_pos (hguard.mpr hcase)] at hst
      exact Except.noConfusion hst
    · intro hcase
      rw [registrationNew, if_neg (fun h => hcase (hguard.mp h))]
      exact ⟨_, rfl⟩
  · intro h1 h2
    rw [rigidRegister, registrationNew, if_pos (hguard.mpr ⟨h1, h2⟩)]

/-- Witness for C4 at a concrete failing configuration. -/
theorem rigid_config_guard_witness :
    ((∃ st, registrationNew ⟨false, ⟨1e-5, 150, NormalizeKind.independent, 1/10,
        Option.none, 1e-10⟩, false⟩ 2 = Except.ok st) ↔
      ¬(NormalizeKind.independent = NormalizeKind.independent ∧ false = false)) ∧
    rigidRegister ⟨false, ⟨1e-5, 150, NormalizeKind.independent, 1/10,
        Option.none, 1e-10⟩, false⟩ 2 svd0 [[1, 2]] [[3, 4]] =
      ([], Except.error CpdError.cannotNormalizeIndependentlyWithoutScale) := by
  have h := rigid_config_guard ⟨false, ⟨1e-5, 150, NormalizeKind.independent, 1/10,
    Option.none, 1e-10⟩, false⟩ 2 svd0 [[1, 2]] [[3, 4]]
  exact ⟨h.1, h.2 rfl rfl⟩

/-! ## Claim C5: normalization round trip -/

/-- Row-wise round trip for normalize and denormalize. -/
theorem roundtrip_row (s : ℝ) (hs : s ≠ 0) :
    ∀ (r off : List ℝ), r.length ≤ off.length →
      List.zipWith (fun x o => x + o)
        (((List.zipWith (fun x o => x - o) r off).map fun x => x / s).map fun x => x * s) off
        = r := by
  intro r
  induction r with
  | nil => intro off _; simp
  | cons x rs ih =>
    intro off hlen
    cases off with
    | nil => simp at hlen
    | cons o os =>
      simp only [List.zipWith_cons_cons, List.map_cons, List.length_cons,
        List.cons.injEq] at hlen ⊢
      refine ⟨by field_simp, ih os (by omega)⟩

/-- C5: for every matrix and parameter set with nonzero scale,
`denormalize(normalize(M, params), params) == M` exactly in real arithmetic,
and the `None` strategy returns both inputs unchanged with no parameters. -/
theorem normalize_denormalize_roundtrip (p : Parameters) (m : LMat) (d : ℕ)
    (fixed moving : LMat) (hs : p.scale ≠ 0)
    (hwf : ∀ r ∈ m, r.length ≤ p.offset.length) :
    p.denormalizeM (p.normalizeM m) = m ∧
    NormalizeKind.none.normalize d fixed moving = (fixed, moving, Option.none) := by
  refine ⟨?_, rfl⟩
  unfold Parameters.normalizeM Parameters.denormalizeM
  rw [List.map_map]
  conv_rhs => rw [← List.map_id m]
  exact List.map_congr_left fun r hr => by
    simpa [Function.comp] using roundtrip_row p.scale hs r p.offset (hwf r hr)

/-- Witness for C5 at a concrete matrix and parameter set. -/
theorem normalize_denormalize_roundtrip_witness :
    Parameters.denormalizeM ⟨[1, 2], 2⟩ (Parameters.normalizeM ⟨[1, 2], 2⟩ [[3, 4]]) = [[3, 4]] ∧
    NormalizeKind.none.normalize 2 [[5, 6]] [[7, 8]] = ([[5, 6]], [[7, 8]], Option.none) := by
  exact normalize_denormalize_roundtrip ⟨[1, 2], 2⟩ [[3, 4]] 2 [[5, 6]] [[7, 8]]
    (by norm_num) (by simp)

/-! ## Claim C6: probability invariants -/

/-- The outlier term is nonnegative for a positive sigma2 and weight in `[0, 1)`. -/
theorem outlierTerm_nonneg (d : ℕ) (nf nm : ℕ) (w sigma2 : ℝ)
    (hs : 0 < sigma2) (hw0 : 0 ≤ w) (hw1 : w < 1) : 0 ≤ outlierTerm d nf nm w sigma2 := by
  unfold outlierTerm
  have hbase : (0 : ℝ) ≤ 2 * sigma2 * Real.pi := by positivity
  apply div_nonneg
  · exact mul_nonneg (mul_nonneg hw0 (Nat.cast_nonneg nm)) (Real.rpow_nonneg hbase _)
  · exact mul_nonneg (by linarith) (Nat.cast_nonneg nf)

/-- Each kernel sum `sp` dominates the outlier term and is nonnegative. -/
theorem spRow_nonneg (d : ℕ) (fixed moving : LMat) (w sigma2 : ℝ) (f : List ℝ)
    (hs : 0 < sigma2) (hw0 : 0 ≤ w) (hw1 : w < 1) :
    outlierTerm d fixed.length moving.length w sigma2 ≤ spRow d fixed moving w sigma2 f ∧
      0 ≤ spRow d fixed moving w sigma2 f := by
  have hker : 0 ≤ (moving.map (kernel sigma2 f)).sum :=
    List.sum_nonneg fun x hx => by
      obtain ⟨m, _, rfl⟩ := List.mem_map.mp hx
      exact (Real.exp_pos _).le
  have hout := outlierTerm_nonneg d fixed.length moving.length w sigma2 hs hw0 hw1
  unfold spRow
  constructor <;> linarith

/-- For a nonempty moving matrix every kernel sum is strictly positive. -/
theorem spRow_pos (d : ℕ) (fixed moving : LMat) (w sigma2 : ℝ) (f : List ℝ)
    (hs : 0 < sigma2) (hw0 : 0 ≤ w) (hw1 : w < 1) (hm : moving ≠ []) :
    0 < spRow d fixed moving w sigma2 f := by
  have hout := outlierTerm_nonneg d fixed.length moving.length w sigma2 hs hw0 hw1
  have hker : 0 < (moving.map (kernel sigma2 f)).sum := by
    refine List.sum_pos _ (fun x hx => ?_) (by simpa using hm)
    obtain ⟨m, _, rfl⟩ := List.mem_map.mp hx
    exact Real.exp_pos _
  unfold spRow
  linarith

/-- Counterexample to C6 as stated: with an empty moving matrix (and nonempty
fixed) the kernel sum of the fixed row is zero, so the source's `pt1` entry
`1. - 0.0/0.0` is NaN — not a real number in `[0, 1]`. -/
theorem pt1_invariant_counterexample :
    spRow 2 [[0, 0]] [] (1/10) 1 [0, 0] = 0 ∧
    ¬ ∃ x : ℝ, pt1EntryF 2 [[0, 0]] [] (1/10) 1 [0, 0] = some x ∧ 0 ≤ x ∧ x ≤ 1 := by
  have hsp : spRow 2 [[0, 0]] [] (1/10) 1 [0, 0] = 0 := by
    simp [spRow, outlierTerm]
  refine ⟨hsp, ?_⟩
  rintro ⟨x, hx, -⟩
  rw [pt1EntryF, fdiv, if_pos hsp] at hx
  simp at hx

/-- C6 (amended): for every fixed matrix, every nonempty moving matrix,
sigma2 > 0 and outlier weight in `[0, 1)`, every entry of `pt1` lies in
`[0, 1]` and every entry of `p1` is nonnegative; moreover every `pt1` entry is
finite — the IEEE-division model of `1. - outliers / sp` agrees with the real
quotient, since the kernel sum is strictly positive. -/
theorem pt1_p1_invariants (d : ℕ) (fixed moving : LMat) (w sigma2 : ℝ)
    (hs : 0 < sigma2) (hw0 : 0 ≤ w) (hw1 : w < 1) (hm : moving ≠ []) :
    (∀ x ∈ (probabilities d fixed moving w sigma2).pt1, 0 ≤ x ∧ x ≤ 1) ∧
    (∀ x ∈ (probabilities d fixed moving w sigma2).p1, 0 ≤ x) ∧
    (∀ f ∈ fixed, pt1EntryF d fixed moving w sigma2 f
      = some (1 - outlierTerm d fixed.length moving.length w sigma2
          / spRow d fixed moving w sigma2 f)) := by
  have hout := outlierTerm_nonneg d fixed.length moving.length w sigma2 hs hw0 hw1
  refine ⟨?_, ?_, ?_⟩
  · intro x hx
    obtain ⟨f, _, rfl⟩ := List.mem_map.mp hx
    obtain ⟨hdom, hsp⟩ := spRow_nonneg d fixed moving w sigma2 f hs hw0 hw1
    have hq0 : 0 ≤ outlierTerm d fixed.length moving.length w sigma2 /
        spRow d fixed moving w sigma2 f := div_nonneg hout hsp
    have hq1 : outlierTerm d fixed.length moving.length w sigma2 /
        spRow d fixed moving w sigma2 f ≤ 1 := div_le_one_of_le₀ hdom hsp
    constructor <;> linarith
  · intro x hx
    obtain ⟨m, _, rfl⟩ := List.mem_map.mp hx
    refine List.sum_nonneg fun y hy => ?_
    obtain ⟨f, _, rfl⟩ := List.mem_map.mp hy
    exact div_nonneg (Real.exp_pos _).le
      (spRow_nonneg d fixed moving w sigma2 f hs hw0 hw1).2
  · intro f _
    have hsp := spRow_pos d fixed moving w sigma2 f hs hw0 hw1 hm
    rw [pt1EntryF, fdiv, if_neg hsp.ne']
    rfl

/-- Witness for C6 at a concrete scenario. -/
theorem pt1_p1_invariants_witness :
    (∀ x ∈ (probabilities 2 [[1, 3]] [[2, 4]] (1/10) 1).pt1, 0 ≤ x ∧ x ≤ 1) ∧
    (∀ x ∈ (probabilities 2 [[1, 3]] [[2, 4]] (1/10) 1).p1, 0 ≤ x) ∧
    (∀ f ∈ ([[1, 3]] : LMat), pt1EntryF 2 [[1, 3]] [[2, 4]] (1/10) 1 f
      = some (1 - outlierTerm 2 ([[1, 3]] : LMat).length ([[2, 4]] : LMat).length (1/10) 1
          / spRow 2 [[1, 3]] [[2, 4]] (1/10) 1 f)) :=
  pt1_p1_invariants 2 [[1, 3]] [[2, 4]] (1/10) 1 (by norm_num) (by norm_num) (by norm_num)
    (by simp)

/-! ## Claim C10: total responsibility mass -/

/-- Distributing a sum over a pointwise addition of two maps. -/
theorem sum_map_add_distrib {α : Type} (l : List α) (f g : α → ℝ) :
    (l.map fun a => f a + g a).sum = (l.map f).sum + (l.map g).sum := by
  induction l with
  | nil => simp
  | cons a t ih => simp only [List.map_cons, List.sum_cons, ih]; ring

/-- Exchanging two nested list sums. -/
theorem sum_sum_comm {α β : Type} (l1 : List α) (l2 : List β) (g : α → β → ℝ) :
    (l1.map fun a => (l2.map fun b => g a b).sum).sum
      = (l2.map fun b => (l1.map fun a => g a b).sum).sum := by
  induction l1 with
  | nil => simp
  | cons a t ih =>
    simp only [List.map_cons, List.sum_cons, ih, ← sum_map_add_distrib]

/-- Pulling a constant divisor out of a list sum. -/
theorem sum_map_div {α : Type} (l : List α) (f : α → ℝ) (c : ℝ) :
    (l.map fun a => f a / c).sum = (l.map f).sum / c := by
  induction l with
  | nil => simp
  | cons a t ih => simp only [List.map_cons, List.sum_cons, ih]; ring

/-- Counterexample to C10 as stated: with an empty moving matrix (and a
nonempty fixed one) the sum of `p1` is `0` while the sum of `pt1` is not. -/
theorem p1_pt1_sum_counterexample :
    ¬ ((probabilities 2 [[0, 0]] [] (1/10) 1).p1.sum
        = (probabilities 2 [[0, 0]] [] (1/10) 1).pt1.sum) := by
  simp [probabilities, spRow, outlierTerm]

/-- C10 (amended): for every fixed matrix, every nonempty moving matrix,
sigma2 > 0 and outlier weight in `[0, 1)`, the sum of the entries of `p1`
equals the sum of the entries of `pt1` in exact real arithmetic. -/
theorem p1_pt1_sum_eq (d : ℕ) (fixed moving : LMat) (w sigma2 : ℝ)
    (hs : 0 < sigma2) (hw0 : 0 ≤ w) (hw1 : w < 1) (hm : moving ≠ []) :
    (probabilities d fixed moving w sigma2).p1.sum
      = (probabilities d fixed moving w sigma2).pt1.sum := by
  simp only [probabilities]
  rw [sum_sum_comm]
  refine congrArg List.sum (List.map_congr_left fun f _ => ?_)
  have hsp : 0 < spRow d fixed moving w sigma2 f := by
    have hout := outlierTerm_nonneg d fixed.length moving.length w sigma2 hs hw0 hw1
    have hker : 0 < (moving.map (kernel sigma2 f)).sum := by
      refine List.sum_pos _ (fun x hx => ?_) (by simpa using hm)
      obtain ⟨m, _, rfl⟩ := List.mem_map.mp hx
      exact Real.exp_pos _
    unfold spRow
    linarith
  rw [sum_map_div]
  have hker_eq : (moving.map (kernel sigma2 f)).sum
      = spRow d fixed moving w sigma2 f
        - outlierTerm d fixed.length moving.length w sigma2 := by
    unfold spRow; ring
  rw [hker_eq, sub_div, div_self hsp.ne']

/-- Witness for C10 at the concrete scenario of the probability test. -/
theorem p1_pt1_sum_eq_witness :
    (probabilities 2 [[1, 3]] [[2, 4], [5, 6]] (1/10) 1).p1.sum
      = (probabilities 2 [[1, 3]] [[2, 4], [5, 6]] (1/10) 1).pt1.sum :=
  p1_pt1_sum_eq 2 [[1, 3]] [[2, 4], [5, 6]] (1/10) 1 (by norm_num) (by norm_num)
    (by norm_num) (by simp)

/-! ## Claim C7: loop guard and convergence flag -/

/-- The loop body increments the iteration counter by one. -/
theorem loopBody_iterations {S : Type} (cfg : RunnerCfg) (d : ℕ) (ops : RegOps S)
    (fixed moving : LMat) (s : LoopState S) :
    (loopBody cfg d ops fixed moving s).iterations = s.iterations + 1 := rfl

/-- With enough fuel the loop only stops because its guard fails. -/
theorem runLoop_exit {S : Type} (cfg : RunnerCfg) (d : ℕ) (ops : RegOps S)
    (fixed moving : LMat) :
    ∀ (fuel : ℕ) (s : LoopState S), cfg.maxIterations < s.iterations + fuel →
      ¬ loopCond cfg (runLoop cfg d ops fixed moving fuel s) := by
  intro fuel
  induction fuel with
  | zero =>
    intro s hfuel hcond
    rw [runLoop] at hcond
    exact absurd hcond.1 (by omega)
  | succ n ih =>
    intro s hfuel
    rw [runLoop]
    split
    · exact ih _ (by rw [loopBody_iterations]; omega)
    · assumption

/-- C7: the loop body runs exactly while
`iterations < maxIterations ∧ |errorChange| > errorChangeThreshold ∧ sigma2 > sigma2Threshold`
(the stored `error_change` is an absolute value, and nonnegative), the loop
can only exit with the guard false, and for a valid outlier weight the run
returns `Ok` with `converged = (iterations < maxIterations)`; exhausting the
iteration budget yields `converged = false`, not an error. -/
theorem run_convergence_flag {S : Type} (cfg : RunnerCfg) (d : ℕ) (ops : RegOps S)
    (s0 : S) (fixed moving : LMat)
    (hw0 : 0 ≤ cfg.outlierWeight) (hw1 : cfg.outlierWeight ≤ 1) :
    (∀ s : LoopState S, 0 ≤ s.errorChange →
      (loopCond cfg s ↔ s.iterations < cfg.maxIterations ∧
        cfg.errorChangeThreshold < |s.errorChange| ∧ cfg.sigma2Threshold < s.sigma2)) ∧
    (∀ (fuel : ℕ) (s : LoopState S), cfg.maxIterations < s.iterations + fuel →
      ¬ loopCond cfg (runLoop cfg d ops fixed moving fuel s)) ∧
    (∃ r, (runnerRun cfg d ops s0 fixed moving).2 = Except.ok r ∧
      (r.converged = true ↔ r.iterations < cfg.maxIterations) ∧
      (r.iterations = cfg.maxIterations → r.converged = false)) := by
  refine ⟨fun s hnn => by rw [abs_of_nonneg hnn]; exact Iff.rfl,
    runLoop_exit cfg d ops fixed moving, ?_⟩
  have hval : transformerNew (cfg.normalize.normalize d fixed moving).1 cfg.outlierWeight
      = Except.ok ⟨(cfg.normalize.normalize d fixed moving).1, cfg.outlierWeight⟩ := by
    rw [transformerNew, if_neg]
    push_neg
    exact ⟨hw0, hw1⟩
  have hok : ∃ r, (runnerRun cfg d ops s0 fixed moving).2 = Except.ok r ∧
      r.converged = decide (r.iterations < cfg.maxIterations) := by
    simp only [runnerRun, hval]
    exact ⟨_, rfl, rfl⟩
  obtain ⟨r, hr, hc⟩ := hok
  refine ⟨r, hr, ?_, ?_⟩
  · rw [hc]
    exact decide_eq_true_iff
  · intro hmax
    rw [hc, hmax]
    simp

/-- Witness for C7 with a trivial registration strategy. -/
theorem run_convergence_flag_witness :
    (∀ s : LoopState Unit, 0 ≤ s.errorChange →
      (loopCond ⟨1e-5, 3, NormalizeKind.none, 1/10, Option.none, 1e-10⟩ s ↔
        s.iterations < 3 ∧ (1e-5 : ℝ) < |s.errorChange| ∧ (1e-10 : ℝ) < s.sigma2)) ∧
    (∀ (fuel : ℕ) (s : LoopState Unit), 3 < s.iterations + fuel →
      ¬ loopCond ⟨1e-5, 3, NormalizeKind.none, 1/10, Option.none, 1e-10⟩
        (runLoop ⟨1e-5, 3, NormalizeKind.none, 1/10, Option.none, 1e-10⟩ 2
          ⟨fun s _ _ _ => (s, 0), fun _ m => m, fun s _ => s⟩ [[1, 3]] [[2, 4]] fuel s)) ∧
    (∃ r, (runnerRun ⟨1e-5, 3, NormalizeKind.none, 1/10, Option.none, 1e-10⟩ 2
        ⟨fun s _ _ _ => (s, 0), fun _ m => m, fun s _ => s⟩ () [[1, 3]] [[2, 4]]).2
          = Except.ok r ∧
      (r.converged = true ↔ r.iterations < 3) ∧
      (r.iterations = 3 → r.converged = false)) :=
  run_convergence_flag ⟨1e-5, 3, NormalizeKind.none, 1/10, Option.none, 1e-10⟩ 2
    ⟨fun s _ _ _ => (s, 0), fun _ m => m, fun s _ => s⟩ () [[1, 3]] [[2, 4]]
    (by norm_num) (by norm_num)

/-! ## Claim C3: when the outlier weight is validated -/

/-- Counterexample to C3 as stated: at outlier weight `2` the run is rejected
with `InvalidOutlierWeight`, but the recorded phase order shows that the
normalization phase and the sigma2 computation precede the validation, so the
rejection does not happen before those matrix computations. -/
theorem outlier_validation_order_counterexample :
    (runnerRun ⟨1e-5, 150, NormalizeKind.sameScale, 2, Option.none, 1e-10⟩ 2
        ⟨fun s _ _ _ => (s, 0), fun _ m => m, fun s _ => s⟩ () [[1, 3]] [[2, 4]]).2
      = Except.error (CpdError.invalidOutlierWeight 2) ∧
    (runnerRun ⟨1e-5, 150, NormalizeKind.sameScale, 2, Option.none, 1e-10⟩ 2
        (⟨fun s _ _ _ => (s, 0), fun _ m => m, fun s _ => s⟩ : RegOps Unit) () [[1, 3]] [[2, 4]]).1
      = [Phase.normalizePhase, Phase.sigma2Phase, Phase.validatePhase] ∧
    (runnerRun ⟨1e-5, 150, NormalizeKind.sameScale, 2, Option.none, 1e-10⟩ 2
        (⟨fun s _ _ _ => (s, 0), fun _ m => m, fun s _ => s⟩ : RegOps Unit) () [[1, 3]] [[2, 4]]).1.head?
      ≠ some Phase.validatePhase := by
  have hval : transformerNew
      ((NormalizeKind.sameScale).normalize 2 [[1, 3]] [[2, 4]]).1 (2 : ℝ)
      = Except.error (CpdError.invalidOutlierWeight 2) := by
    rw [transformerNew, if_pos]
    right; norm_num
  refine ⟨?_, ?_, ?_⟩ <;> simp [runnerRun, hval]

/-- C3 (amended): for every outlier weight strictly outside `[0, 1]` the run is
rejected with `InvalidOutlierWeight`, before the iteration loop runs — but
after the normalization of the inputs and after the initial sigma2 is
computed, as the recorded phase order shows. -/
theorem outlier_validation_order {S : Type} (cfg : RunnerCfg) (d : ℕ) (ops : RegOps S)
    (s0 : S) (fixed moving : LMat)
    (hw : cfg.outlierWeight < 0 ∨ 1 < cfg.outlierWeight) :
    (runnerRun cfg d ops s0 fixed moving).2
      = Except.error (CpdError.invalidOutlierWeight cfg.outlierWeight) ∧
    (runnerRun cfg d ops s0 fixed moving).1
      = [Phase.normalizePhase, Phase.sigma2Phase, Phase.validatePhase] := by
  have hval : transformerNew (cfg.normalize.normalize d fixed moving).1 cfg.outlierWeight
      = Except.error (CpdError.invalidOutlierWeight cfg.outlierWeight) := by
    rw [transformerNew, if_pos hw]
  constructor <;> simp only [runnerRun, hval]

/-- Witness for C3 (amended) at outlier weight `-1`. -/
theorem outlier_validation_order_witness :
    (runnerRun ⟨1e-5, 150, NormalizeKind.none, -1, Option.none, 1e-10⟩ 2
        (⟨fun s _ _ _ => (s, 0), fun _ m => m, fun s _ => s⟩ : RegOps Unit) () [[1, 3]] [[2, 4]]).2
      = Except.error (CpdError.invalidOutlierWeight (-1)) ∧
    (runnerRun ⟨1e-5, 150, NormalizeKind.none, -1, Option.none, 1e-10⟩ 2
        (⟨fun s _ _ _ => (s, 0), fun _ m => m, fun s _ => s⟩ : RegOps Unit) () [[1, 3]] [[2, 4]]).1
      = [Phase.normalizePhase, Phase.sigma2Phase, Phase.validatePhase] :=
  outlier_validation_order ⟨1e-5, 150, NormalizeKind.none, -1, Option.none, 1e-10⟩ 2
    ⟨fun s _ _ _ => (s, 0), fun _ m => m, fun s _ => s⟩ () [[1, 3]] [[2, 4]]
    (Or.inl (by norm_num))

/-! ## Claim C2: the reflection correction of the M-step -/

/-- Concrete shape of the 2×2 identity. -/
theorem identityL_two : identityL 2 = [[1, 0], [0, 1]] := by
  norm_num [identityL, List.range_succ]

/-- C2: when reflections are disallowed, the correction matrix of the rigid
M-step is the identity except that its last diagonal entry is the sign of
`det(U·Vᵗ)` (the code stores `det(U·Vᵗ)` itself, which for orthogonal SVD
factors equals its sign), and the updated rotation is `U·C·Vᵗ`. -/
theorem procrustes_reflection_correction (cfg : RigidCfg) (d : ℕ)
    (svd : LMat → SvdResult) (st : RegState) (fixed moving : LMat)
    (pr : Probabilities) (sv : SvdResult)
    (har : cfg.allowReflections = false)
    (hsv : sv = svd (aMatrixOf d fixed moving pr))
    (hdet : detL d (matmulL sv.u sv.vt) = 1 ∨ detL d (matmulL sv.u sv.vt) = -1) :
    cMatrix cfg.allowReflections d sv.u sv.vt = cMatrixSpec d sv.u sv.vt ∧
    (rigidIterate cfg d svd st fixed moving pr).1.rotation
      = matmulL (matmulL sv.u (cMatrixSpec d sv.u sv.vt)) sv.vt := by
  have hsign : Real.sign (detL d (matmulL sv.u sv.vt)) = detL d (matmulL sv.u sv.vt) := by
    rcases hdet with h | h <;> rw [h]
    · exact Real.sign_one
    · rw [Real.sign_of_neg (by norm_num)]
  have hc : cMatrix cfg.allowReflections d sv.u sv.vt = cMatrixSpec d sv.u sv.vt := by
    rw [har]
    simp [cMatrix, cMatrixSpec, hsign]
  refine ⟨hc, ?_⟩
  subst hsv
  simp only [rigidIterate]
  rw [← hc, har]

/-- Witness for C2 with identity SVD factors. -/
theorem procrustes_reflection_correction_witness :
    cMatrix false 2 (svd0 (aMatrixOf 2 [[1, 3]] [[2, 4]] ⟨[1], [1], [[2, 4]], 0⟩)).u
        (svd0 (aMatrixOf 2 [[1, 3]] [[2, 4]] ⟨[1], [1], [[2, 4]], 0⟩)).vt
      = cMatrixSpec 2 (svd0 (aMatrixOf 2 [[1, 3]] [[2, 4]] ⟨[1], [1], [[2, 4]], 0⟩)).u
        (svd0 (aMatrixOf 2 [[1, 3]] [[2, 4]] ⟨[1], [1], [[2, 4]], 0⟩)).vt ∧
    (rigidIterate ⟨false, ⟨1e-5, 150, NormalizeKind.none, 1/10, Option.none, 1e-10⟩, false⟩
        2 svd0 ⟨identityL 2, 1, [0, 0]⟩ [[1, 3]] [[2, 4]] ⟨[1], [1], [[2, 4]], 0⟩).1.rotation
      = matmulL (matmulL (svd0 (aMatrixOf 2 [[1, 3]] [[2, 4]] ⟨[1], [1], [[2, 4]], 0⟩)).u
          (cMatrixSpec 2 (svd0 (aMatrixOf 2 [[1, 3]] [[2, 4]] ⟨[1], [1], [[2, 4]], 0⟩)).u
            (svd0 (aMatrixOf 2 [[1, 3]] [[2, 4]] ⟨[1], [1], [[2, 4]], 0⟩)).vt))
          (svd0 (aMatrixOf 2 [[1, 3]] [[2, 4]] ⟨[1], [1], [[2, 4]], 0⟩)).vt := by
  have hdet : detL 2 (matmulL (identityL 2) (identityL 2)) = 1 ∨
      detL 2 (matmulL (identityL 2) (identityL 2)) = -1 := by
    left
    rw [identityL_two]
    norm_num [matmulL, columnL, dotL, List.range_succ]
    rw [detL, Matrix.det_fin_two]
    norm_num
  exact procrustes_reflection_correction
    ⟨false, ⟨1e-5, 150, NormalizeKind.none, 1/10, Option.none, 1e-10⟩, false⟩
    2 svd0 ⟨identityL 2, 1, [0, 0]⟩ [[1, 3]] [[2, 4]] ⟨[1], [1], [[2, 4]], 0⟩ _ rfl rfl hdet

/-! ## Claim C8: the default sigma2 -/

/-- Reading an in-range position of a mapped range. -/
theorem getD_map_range {α : Type} (g : ℕ → α) {n i : ℕ} (dflt : α) (h : i < n) :
    ((List.range n).map g).getD i dflt = g i := by
  rw [List.getD_eq_getElem?_getD, List.getElem?_map, List.getElem?_range h]
  rfl

/-- A dot product of a vector with itself is the sum of the squares. -/
theorem dotL_self (a : List ℝ) : dotL a a = (a.map fun x => x ^ 2).sum := by
  unfold dotL
  rw [List.zipWith_same]
  exact congrArg List.sum (List.map_congr_left fun x _ => (pow_two x).symm)

/-- The trace of the Gram product `fᵗ·f` is the sum of the squares of all
entries, grouped by column. -/
theorem traceL_gram (d : ℕ) (f : LMat) (hwf : ∀ r ∈ f, r.length = d) :
    traceL (matmulL (transposeL d f) f)
      = ((List.range d).map fun j => ((columnL j f).map fun x => x ^ 2).sum).sum := by
  cases f with
  | nil =>
    unfold traceL matmulL transposeL columnL
    simp
  | cons r0 rest =>
    have hc : ((r0 :: rest).headD []).length = d := hwf r0 (List.mem_cons_self r0 rest)
    unfold traceL matmulL transposeL
    rw [List.map_map, List.length_map, List.length_range]
    refine congrArg List.sum (List.map_congr_left fun i hi => ?_)
    have hid : i < d := List.mem_range.mp hi
    rw [getD_map_range _ _ hid]
    simp only [Function.comp]
    rw [hc, getD_map_range _ _ hid]
    exact dotL_self _

/-- The column-sum dot product as a sum over columns. -/
theorem dotL_colSums (d : ℕ) (f m : LMat) :
    dotL (colSums d f) (colSums d m)
      = ((List.range d).map fun j => (columnL j f).sum * (columnL j m).sum).sum := by
  unfold dotL colSums
  rw [List.zipWith_map, List.zipWith_same]

/-- C8: the default sigma2 equals
`[N·trace(fixedᵗ·fixed) + M·trace(movingᵗ·moving) − 2·(columnSums(fixed)·columnSumsᵗ(moving))] / (N·M·D)`,
and for the 2-column matrix built column-major from `[1, 2, 3, 4]` used as both
fixed and moving it is exactly `1/2`. -/
theorem sigma2_default_eq (d : ℕ) (f m : LMat)
    (hf : ∀ r ∈ f, r.length = d) (hm : ∀ r ∈ m, r.length = d) :
    sigma2Default d f m = sigma2Spec d f m ∧
    sigma2Default 2 [[1, 3], [2, 4]] [[1, 3], [2, 4]] = 1/2 := by
  constructor
  · simp only [sigma2Default, sigma2Spec]
    rw [traceL_gram d f hf, traceL_gram d m hm, dotL_colSums]
  · norm_num [sigma2Default, traceL, matmulL, transposeL, columnL, dotL, colSums,
      List.range_succ, List.getD_cons_zero, List.getD_cons_succ]

/-- Witness for C8 at the concrete test matrix. -/
theorem sigma2_default_eq_witness :
    sigma2Default 2 [[1, 3], [2, 4]] [[1, 3], [2, 4]]
      = sigma2Spec 2 [[1, 3], [2, 4]] [[1, 3], [2, 4]] ∧
    sigma2Default 2 [[1, 3], [2, 4]] [[1, 3], [2, 4]] = 1/2 :=
  sigma2_default_eq 2 [[1, 3], [2, 4]] [[1, 3], [2, 4]] (by simp) (by simp)

/-! ## Concrete evaluation of the probability test scenario

The test slice `[2., 5., 4., 6.]` is read column-major, so the moving rows are
`(2, 4)` and `(5, 6)`. -/

/-- The outlier term of the scenario is `4π/9`. -/
theorem outlierTerm_scenario : outlierTerm 2 1 2 (1/10) 1 = 4 * Real.pi / 9 := by
  unfold outlierTerm
  rw [show (0.5 * ((2 : ℕ) : ℝ)) = 1 by norm_num, Real.rpow_one]
  push_cast
  ring

/-- First kernel value of the scenario. -/
theorem kernel_scenario_1 : kernel 1 [1, 3] [2, 4] = Real.exp (-1) := by
  unfold kernel sqDist
  norm_num

/-- Second kernel value of the scenario. -/
theorem kernel_scenario_2 : kernel 1 [1, 3] [5, 6] = Real.exp (-(25/2)) := by
  unfold kernel sqDist
  norm_num

/-- The kernel sum of the scenario's single fixed row. -/
theorem spRow_scenario : spRow 2 [[1, 3]] [[2, 4], [5, 6]] (1/10) 1 [1, 3]
    = Real.exp (-1) + (Real.exp (-(25/2)) + 4 * Real.pi / 9) := by
  unfold spRow
  simp only [List.map_cons, List.map_nil, List.sum_cons, List.sum_nil, List.length_cons,
    List.length_nil, kernel_scenario_1, kernel_scenario_2]
  rw [show (0 + 1 : ℕ) = 1 by norm_num, show (0 + 1 + 1 : ℕ) = 2 by norm_num,
    outlierTerm_scenario]
  ring

/-- Value of `p1` of the scenario in closed form. -/
theorem p1_scenario : (probabilities 2 [[1, 3]] [[2, 4], [5, 6]] (1/10) 1).p1
    = [Real.exp (-1) / (Real.exp (-1) + (Real.exp (-(25/2)) + 4 * Real.pi / 9)),
       Real.exp (-(25/2)) / (Real.exp (-1) + (Real.exp (-(25/2)) + 4 * Real.pi / 9))] := by
  simp only [probabilities, List.map_cons, List.map_nil, List.sum_cons, List.sum_nil,
    kernel_scenario_1, kernel_scenario_2, spRow_scenario]
  norm_num

/-- Value of `pt1` of the scenario in closed form. -/
theorem pt1_scenario : (probabilities 2 [[1, 3]] [[2, 4], [5, 6]] (1/10) 1).pt1
    = [1 - (4 * Real.pi / 9) / (Real.exp (-1) + (Real.exp (-(25/2)) + 4 * Real.pi / 9))] := by
  simp only [probabilities, List.map_cons, List.map_nil, List.length_cons, List.length_nil,
    spRow_scenario]
  rw [show (0 + 1 : ℕ) = 1 by norm_num, show (0 + 1 + 1 : ℕ) = 2 by norm_num,
    outlierTerm_scenario]

/-- Value of `px` of the scenario in closed form: one row per moving point. -/
theorem px_scenario : (probabilities 2 [[1, 3]] [[2, 4], [5, 6]] (1/10) 1).px
    = [[Real.exp (-1) / (Real.exp (-1) + (Real.exp (-(25/2)) + 4 * Real.pi / 9)),
        3 * Real.exp (-1) / (Real.exp (-1) + (Real.exp (-(25/2)) + 4 * Real.pi / 9))],
       [Real.exp (-(25/2)) / (Real.exp (-1) + (Real.exp (-(25/2)) + 4 * Real.pi / 9)),
        3 * Real.exp (-(25/2)) / (Real.exp (-1) + (Real.exp (-(25/2)) + 4 * Real.pi / 9))]] := by
  simp only [probabilities, List.map_cons, List.map_nil, List.sum_cons, List.sum_nil,
    kernel_scenario_1, kernel_scenario_2, spRow_scenario, List.range_succ, List.range_zero,
    List.nil_append, List.cons_append, List.getD_cons_zero, List.getD_cons_succ]
  norm_num
  constructor <;> constructor <;> ring

/-- Value of `error` of the scenario in closed form. -/
theorem error_scenario : (probabilities 2 [[1, 3]] [[2, 4], [5, 6]] (1/10) 1).error
    = -Real.log (Real.exp (-1) + (Real.exp (-(25/2)) + 4 * Real.pi / 9)) := by
  simp only [probabilities, List.map_cons, List.map_nil, List.sum_cons, List.sum_nil,
    spRow_scenario]
  simp [Real.log_one]

/-! ## Numeric bounds for the scenario -/

/-- Upper bound: `exp(-25/2)` is below `6.2e-6`. -/
theorem exp_neg_25_2_lt : Real.exp (-(25/2)) < 0.0000062 := by
  have h1 : Real.exp (-(25/2)) < Real.exp (-12) := Real.exp_lt_exp.mpr (by norm_num)
  have h2 : Real.exp (-12 : ℝ) = Real.exp (-1) ^ 12 := by
    rw [show (-12 : ℝ) = (12 : ℕ) * (-1) by norm_num, Real.exp_nat_mul]
  have h3 : Real.exp (-1) ^ 12 < 0.3678794412 ^ 12 :=
    pow_lt_pow_left₀ Real.exp_neg_one_lt_d9 (Real.exp_pos _).le (by norm_num)
  have h4 : (0.3678794412 : ℝ) ^ 12 < 0.0000062 := by norm_num
  linarith

/-- Two-sided bounds for the scenario's kernel sum. -/
theorem sp_scenario_bounds :
    1.7641425 < Real.exp (-1) + (Real.exp (-(25/2)) + 4 * Real.pi / 9) ∧
    Real.exp (-1) + (Real.exp (-(25/2)) + 4 * Real.pi / 9) < 1.7641492 := by
  have h1 := Real.exp_neg_one_gt_d9
  have h2 := Real.exp_neg_one_lt_d9
  have h3 := Real.exp_pos (-(25/2) : ℝ)
  have h4 := exp_neg_25_2_lt
  have h5 := Real.pi_gt_d6
  have h6 := Real.pi_lt_d6
  constructor <;> linarith

/-- Taylor upper bound: `exp 0.5676` is below the scenario's kernel sum. -/
theorem exp_05676_lt : Real.exp 0.5676 < 1.7641425 := by
  have h := Real.exp_bound' (x := 0.5676) (by norm_num) (by norm_num) (n := 8) (by norm_num)
  have hsum : (∑ m ∈ Finset.range 8, (0.5676 : ℝ) ^ m / m.factorial)
      + (0.5676 : ℝ) ^ 8 * (8 + 1) / (Nat.factorial 8 * 8) < 1.7641425 := by
    simp only [Finset.sum_range_succ, Finset.sum_range_zero, Nat.factorial]
    norm_num
  calc Real.exp 0.5676 ≤ _ := h
    _ < 1.7641425 := hsum

/-- Taylor lower bound: `exp 0.5678` is above the scenario's kernel sum. -/
theorem exp_05678_gt : 1.7641492 < Real.exp 0.5678 := by
  have h := Real.sum_le_exp_of_nonneg (x := 0.5678) (by norm_num) 6
  have hsum : (1.7641492 : ℝ) < ∑ m ∈ Finset.range 6, (0.5678 : ℝ) ^ m / m.factorial := by
    simp only [Finset.sum_range_succ, Finset.sum_range_zero, Nat.factorial]
    norm_num
  linarith

/-- The log of the scenario's kernel sum lies in `(0.5676, 0.5678)`. -/
theorem log_sp_scenario_bounds :
    0.5676 < Real.log (Real.exp (-1) + (Real.exp (-(25/2)) + 4 * Real.pi / 9)) ∧
    Real.log (Real.exp (-1) + (Real.exp (-(25/2)) + 4 * Real.pi / 9)) < 0.5678 := by
  obtain ⟨hlo, hhi⟩ := sp_scenario_bounds
  have hpos : (0 : ℝ) < Real.exp (-1) + (Real.exp (-(25/2)) + 4 * Real.pi / 9) := by
    linarith
  constructor
  · rw [Real.lt_log_iff_exp_lt hpos]
    calc Real.exp 0.5676 < 1.7641425 := exp_05676_lt
      _ < _ := hlo
  · rw [Real.log_lt_iff_lt_exp hpos]
    calc Real.exp (-1) + (Real.exp (-(25/2)) + 4 * Real.pi / 9) < 1.7641492 := hhi
      _ < _ := exp_05678_gt

/-- Bounds on every probability component of the scenario. -/
theorem scenario_entry_bounds :
    0.2084 ≤ Real.exp (-1) / (Real.exp (-1) + (Real.exp (-(25/2)) + 4 * Real.pi / 9)) ∧
    Real.exp (-1) / (Real.exp (-1) + (Real.exp (-(25/2)) + 4 * Real.pi / 9)) ≤ 0.2086 ∧
    0 ≤ Real.exp (-(25/2)) / (Real.exp (-1) + (Real.exp (-(25/2)) + 4 * Real.pi / 9)) ∧
    Real.exp (-(25/2)) / (Real.exp (-1) + (Real.exp (-(25/2)) + 4 * Real.pi / 9)) ≤ 0.0001 ∧
    0.7914 ≤ (4 * Real.pi / 9) / (Real.exp (-1) + (Real.exp (-(25/2)) + 4 * Real.pi / 9)) ∧
    (4 * Real.pi / 9) / (Real.exp (-1) + (Real.exp (-(25/2)) + 4 * Real.pi / 9)) ≤ 0.7916 ∧
    0.6255 ≤ 3 * Real.exp (-1) / (Real.exp (-1) + (Real.exp (-(25/2)) + 4 * Real.pi / 9)) ∧
    3 * Real.exp (-1) / (Real.exp (-1) + (Real.exp (-(25/2)) + 4 * Real.pi / 9)) ≤ 0.6257 ∧
    3 * Real.exp (-(25/2)) / (Real.exp (-1) + (Real.exp (-(25/2)) + 4 * Real.pi / 9)) ≤ 0.0001 := by
  obtain ⟨hlo, hhi⟩ := sp_scenario_bounds
  have hpos : (0 : ℝ) < Real.exp (-1) + (Real.exp (-(25/2)) + 4 * Real.pi / 9) := by linarith
  have h1 := Real.exp_neg_one_gt_d9
  have h2 := Real.exp_neg_one_lt_d9
  have h3 := Real.exp_pos (-(25/2) : ℝ)
  have h4 := exp_neg_25_2_lt
  have h5 := Real.pi_gt_d6
  have h6 := Real.pi_lt_d6
  refine ⟨?_, ?_, ?_, ?_, ?_, ?_, ?_, ?_, ?_⟩
  · rw [le_div_iff₀ hpos]; linarith
  · rw [div_le_iff₀ hpos]; linarith
  · exact div_nonneg h3.le hpos.le
  · rw [div_le_iff₀ hpos]; linarith
  · rw [le_div_iff₀ hpos]; linarith
  · rw [div_le_iff₀ hpos]; linarith
  · rw [le_div_iff₀ hpos]; linarith
  · rw [div_le_iff₀ hpos]; linarith
  · rw [div_le_iff₀ hpos]; linarith

/-! ## Claim C9 -/

/-- The kernel sum of the scenario read with rows `(2,5)` and `(4,6)`, as the
spec's sentence literally describes the moving points. -/
theorem spRow_claim_reading : spRow 2 [[1, 3]] [[2, 5], [4, 6]] (1/10) 1 [1, 3]
    = Real.exp (-(5/2)) + (Real.exp (-9) + 4 * Real.pi / 9) := by
  have h1 : kernel 1 [1, 3] [2, 5] = Real.exp (-(5/2)) := by
    unfold kernel sqDist
    norm_num
  have h2 : kernel 1 [1, 3] [4, 6] = Real.exp (-9) := by
    unfold kernel sqDist
    norm_num
  unfold spRow
  simp only [List.map_cons, List.map_nil, List.sum_cons, List.sum_nil, List.length_cons,
    List.length_nil, h1, h2]
  rw [show (0 + 1 : ℕ) = 1 by norm_num, show (0 + 1 + 1 : ℕ) = 2 by norm_num,
    outlierTerm_scenario]
  ring

/-- Head entry of `p1` under the claim's literal reading of the moving points. -/
theorem p1_head_claim_reading :
    (probabilities 2 [[1, 3]] [[2, 5], [4, 6]] (1/10) 1).p1.getD 0 0
      = Real.exp (-(5/2)) / (Real.exp (-(5/2)) + (Real.exp (-9) + 4 * Real.pi / 9)) := by
  have h1 : kernel 1 [1, 3] [2, 5] = Real.exp (-(5/2)) := by
    unfold kernel sqDist
    norm_num
  simp only [probabilities, List.map_cons, List.map_nil, List.sum_cons, List.sum_nil,
    h1, spRow_claim_reading, List.getD_cons_zero]
  norm_num

/-- Lower bound: `exp(5/2)` exceeds `10`. -/
theorem exp_5_2_gt_10 : (10 : ℝ) < Real.exp (5/2) := by
  have h := Real.sum_le_exp_of_nonneg (x := 5/2) (by norm_num) 5
  have hsum : (10 : ℝ) < ∑ m ∈ Finset.range 5, (5/2 : ℝ) ^ m / m.factorial := by
    simp only [Finset.sum_range_succ, Finset.sum_range_zero, Nat.factorial]
    norm_num
  linarith

/-- Upper bound: `exp(-5/2)` is below `1/10`. -/
theorem exp_neg_5_2_lt : Real.exp (-(5/2)) < 1/10 := by
  have hmul : Real.exp (-(5/2)) * Real.exp (5/2) = 1 := by
    rw [← Real.exp_add]
    norm_num
  nlinarith [Real.exp_pos (-(5/2) : ℝ), exp_5_2_gt_10]

/-- Counterexample to C9 as stated: with the moving points read as rows
`(2,5)` and `(4,6)` — as the spec sentence writes them — the first entry of
`p1` is below `0.072`, nowhere near `0.2085`.  (The test slice
`[2., 5., 4., 6.]` is column-major, so the actual rows are `(2,4)`, `(5,6)`.) -/
theorem probabilities_claim_reading_counterexample :
    ¬ (|(probabilities 2 [[1, 3]] [[2, 5], [4, 6]] (1/10) 1).p1.getD 0 0 - 0.2085| ≤ 1e-4) := by
  rw [p1_head_claim_reading]
  have he9 : Real.exp (-9 : ℝ) < Real.exp (-(5/2)) := Real.exp_lt_exp.mpr (by norm_num)
  have hpi := Real.pi_gt_d6
  have h52 := exp_neg_5_2_lt
  have hp9 := Real.exp_pos (-9 : ℝ)
  have hp52 := Real.exp_pos (-(5/2) : ℝ)
  have hpos : (0 : ℝ) < Real.exp (-(5/2)) + (Real.exp (-9) + 4 * Real.pi / 9) := by linarith
  have hub : Real.exp (-(5/2)) / (Real.exp (-(5/2)) + (Real.exp (-9) + 4 * Real.pi / 9))
      ≤ 0.072 := by
    rw [div_le_iff₀ hpos]
    linarith
  intro h
  rw [abs_le] at h
  linarith [h.1]

/-- C9 (amended): in the concrete scenario — fixed `(1,3)`, moving rows
`(2,4)` and `(5,6)` (the column-major reading of the test slice
`[2., 5., 4., 6.]`), sigma2 = 1, outlier weight 0.1 — `p1 ≈ [0.2085, 0]`,
`pt1 ≈ [0.2085]` and `error ≈ −0.5677`, all within `1e-4`. -/
theorem probabilities_scenario_values :
    |(probabilities 2 [[1, 3]] [[2, 4], [5, 6]] (1/10) 1).p1.getD 0 0 - 0.2085| ≤ 1e-4 ∧
    |(probabilities 2 [[1, 3]] [[2, 4], [5, 6]] (1/10) 1).p1.getD 1 0| ≤ 1e-4 ∧
    |(probabilities 2 [[1, 3]] [[2, 4], [5, 6]] (1/10) 1).pt1.getD 0 0 - 0.2085| ≤ 1e-4 ∧
    |(probabilities 2 [[1, 3]] [[2, 4], [5, 6]] (1/10) 1).error - (-0.5677)| ≤ 1e-4 := by
  obtain ⟨b1, b2, b3, b4, b5, b6, b7, b8, b9⟩ := scenario_entry_bounds
  obtain ⟨l1, l2⟩ := log_sp_scenario_bounds
  rw [p1_scenario, pt1_scenario, error_scenario]
  simp only [List.getD_cons_zero, List.getD_cons_succ]
  refine ⟨?_, ?_, ?_, ?_⟩ <;> rw [abs_le] <;> constructor <;> linarith

/-! ## Claim C1 -/

/-- Counterexample to C1 as stated: in the concrete scenario `px` has one row
per moving point (two rows), not one row per fixed point. -/
theorem px_rows_counterexample :
    ¬ ((probabilities 2 [[1, 3]] [[2, 4], [5, 6]] (1/10) 1).px.length
        = ([[1, 3]] : LMat).length) := by
  simp [probabilities]

/-- C1 (amended): `px` has one row per moving point and `D` columns (its `m`-th
row accumulates the fixed coordinates weighted by `k(n,m)/sp(n)`), and in the
concrete scenario it is, within `1e-4`, the two-row matrix
`[[0.2085, 0.6256], [0, 0]]`. -/
theorem px_shape_and_values :
    (∀ (d : ℕ) (fixed moving : LMat) (w sigma2 : ℝ),
      (probabilities d fixed moving w sigma2).px.length = moving.length ∧
      (probabilities d fixed moving w sigma2).px.map List.length
        = List.replicate moving.length d) ∧
    |((probabilities 2 [[1, 3]] [[2, 4], [5, 6]] (1/10) 1).px.getD 0 []).getD 0 0 - 0.2085|
      ≤ 1e-4 ∧
    |((probabilities 2 [[1, 3]] [[2, 4], [5, 6]] (1/10) 1).px.getD 0 []).getD 1 0 - 0.6256|
      ≤ 1e-4 ∧
    |((probabilities 2 [[1, 3]] [[2, 4], [5, 6]] (1/10) 1).px.getD 1 []).getD 0 0| ≤ 1e-4 ∧
    |((probabilities 2 [[1, 3]] [[2, 4], [5, 6]] (1/10) 1).px.getD 1 []).getD 1 0| ≤ 1e-4 := by
  obtain ⟨b1, b2, b3, b4, b5, b6, b7, b8, b9⟩ := scenario_entry_bounds
  refine ⟨?_, ?_, ?_, ?_, ?_⟩
  · intro d fixed moving w sigma2
    constructor
    · simp [probabilities]
    · simp only [probabilities, List.map_map]
      rw [show List.replicate moving.length d
          = moving.map (fun _ => d) from (List.map_const' moving d).symm]
      refine List.map_congr_left fun m _ => ?_
      simp
  all_goals rw [px_scenario]
  all_goals simp only [List.getD_cons_zero, List.getD_cons_succ]
  all_goals rw [abs_le]
  · constructor <;> linarith
  · have hb : 0.6255 - 0.6256 ≤ (-1 : ℝ) * 1e-4 ∧ (0.6257 : ℝ) - 0.6256 ≤ 1e-4 := by norm_num
    constructor <;> linarith [hb.1, hb.2]
  · constructor <;> linarith
  · have h9' : 0 ≤ 3 * Real.exp (-(25/2))
        / (Real.exp (-1) + (Real.exp (-(25/2)) + 4 * Real.pi / 9)) := by
      obtain ⟨hlo, _⟩ := sp_scenario_bounds
      have hpos : (0 : ℝ) < Real.exp (-1) + (Real.exp (-(25/2)) + 4 * Real.pi / 9) := by
        linarith
      positivity
    constructor <;> linarith

end Cpd
